import Mathlib

/-!
Verification development for the adb-sync tool (`src/main.py`).

The Python program is shallowly embedded: every string operation the
program performs (splitting, substring tests, `int()` parsing, path
joining, sanitising) is translated into an executable Lean function over
`String` / `List Char`, and the stateful per-file loop of
`AdbSync.pull_folder` / `AdbSync.pull_file` becomes explicit state
passing over a `SyncState` record, with the externally visible side
effects (directory creation, `adb pull` invocations, messages printed to
stderr) collected in an `Event` trace.  The external world (the local
filesystem queried through `os.path.exists` / `os.path.getmtime`, and
the stdout of the adb subprocesses) is a record of pure functions `Env`
supplied as a parameter.  Characters are modelled as Unicode code
points; the case-mapping and digit predicates are the ASCII ones, which
agree with Python on all the ASCII data the program manipulates.
-/

namespace AdbSyncModel

/-! ### Python-style string primitives -/

/-- `matchesAt needle hay` is true when `needle` occurs at the start of
`hay` (needle is a prefix of hay). -/
def matchesAt : List Char → List Char → Bool
  | [], _ => true
  | _ :: _, [] => false
  | a :: as, b :: bs => a == b && matchesAt as bs

/-- `containsSub needle hay` models Python `needle in hay`: `needle`
occurs as a contiguous substring of `hay`. -/
def containsSub (needle : List Char) : List Char → Bool
  | [] => matchesAt needle []
  | c :: cs => matchesAt needle (c :: cs) || containsSub needle cs

/-- Split a character list at every character satisfying `p`, keeping
empty pieces, exactly like Python `str.split(sep)` with a one-character
separator (and like `re.split` with a single-character class):
`"".split` gives `[""]`, adjacent separators give empty pieces. -/
def pySplitP (p : Char → Bool) : List Char → List (List Char)
  | [] => [[]]
  | c :: cs =>
    if p c then [] :: pySplitP p cs
    else
      match pySplitP p cs with
      | s :: ss => (c :: s) :: ss
      | [] => [[c]]

def isSlash (c : Char) : Bool := c == '/'

/-- `remote_file.split("/")` from `pull_file`. -/
def pySplitSlash (s : String) : List (List Char) := pySplitP isSlash s.data

/-- `re.split(r"[\t\n]", s)` from `pull`. -/
def splitTabNewline (s : String) : List String :=
  (pySplitP (fun c => c == '\t' || c == '\n') s.data).map (fun l => ⟨l⟩)

/-- `s.split("\n")` from `pull_folder`. -/
def splitNewline (s : String) : List String :=
  (pySplitP (fun c => c == '\n') s.data).map (fun l => ⟨l⟩)

/-- Python `str.lower()`, restricted to its ASCII behaviour (all the
strings the program compares are ASCII). -/
def pyLower (s : String) : String := ⟨s.data.map Char.toLower⟩

/-! ### Python `int()` parsing

`pull_file` runs `int(check_time.stdout)`.  Python `int` on a string
strips surrounding whitespace, allows one optional sign, and then a
nonempty digit string in which single underscores may separate digits;
anything else raises `ValueError`, modelled as `none`.  (Python also
accepts non-ASCII whitespace and digits; the adb output is ASCII.) -/

def isPySpace (c : Char) : Bool :=
  c == ' ' || c == '\t' || c == '\n' || c == '\r' || c == '\x0b' || c == '\x0c'

def stripSpaces (l : List Char) : List Char :=
  ((l.dropWhile isPySpace).reverse.dropWhile isPySpace).reverse

def digitVal (c : Char) : Nat := c.toNat - '0'.toNat

/-- Digits after the first one: a digit, or an underscore that must be
followed by a digit. -/
def pyDigitsVal : List Char → Nat → Option Nat
  | [], acc => some acc
  | '_' :: c :: rest, acc =>
    if c.isDigit then pyDigitsVal rest (acc * 10 + digitVal c) else none
  | ['_'], _ => none
  | c :: rest, acc =>
    if c.isDigit then pyDigitsVal rest (acc * 10 + digitVal c) else none

/-- An unsigned integer literal: nonempty, starts with a digit. -/
def pyIntNat : List Char → Option Nat
  | [] => none
  | c :: rest => if c.isDigit then pyDigitsVal rest (digitVal c) else none

/-- Optional sign then digits. -/
def pyIntCore : List Char → Option Int
  | '+' :: rest => (pyIntNat rest).map (fun n => (n : Int))
  | '-' :: rest => (pyIntNat rest).map (fun n => -(n : Int))
  | rest => (pyIntNat rest).map (fun n => (n : Int))

/-- `int(s)` for a Python string `s`: `some` the value, `none` for
`ValueError`. -/
def pyInt (s : String) : Option Int := pyIntCore (stripSpaces s.data)

/-! ### The path mapper (`pull_file`, lines 125-131)

`remote_parts = [re.sub(r'[:*?"<>|]', "-", part) for part in
remote_file.split("/")]` followed by
`local_file = os.path.join(self.local, *remote_parts)`. -/

/-- The character class of `re.sub(r'[:*?"<>|]', "-", part)`. -/
def forbiddenChar (c : Char) : Bool :=
  c == ':' || c == '*' || c == '?' || c == '\"' || c == '<' || c == '>' || c == '|'

/-- What the substitution does to one character. -/
def sanChar (c : Char) : Char := if forbiddenChar c then '-' else c

/-- `re.sub(r'[:*?"<>|]', "-", part)`: the pattern is a single-character
class, so the substitution replaces every matching character. -/
def sanSeg (part : List Char) : List Char := part.map sanChar

/-- String-level segment sanitiser. -/
def sanitizeSegment (s : String) : String := ⟨sanSeg s.data⟩

/-- One step of `posixpath.join`: `if b.startswith(sep): path = b
elif not path or path.endswith(sep): path += b else: path += sep + b`. -/
def osJoinGo (path b : List Char) : List Char :=
  if b.head? = some '/' then b
  else if path = [] ∨ path.getLast? = some '/' then path ++ b
  else path ++ '/' :: b

/-- `os.path.join(root, *parts)` (POSIX flavour). -/
def osPathJoin (root : List Char) (parts : List (List Char)) : List Char :=
  parts.foldl osJoinGo root

/-- The mapped local path of a remote file: split on `/`, sanitise each
segment, join under the local root. -/
def local_file (localRoot : String) (remote_file : String) : String :=
  ⟨osPathJoin localRoot.data ((pySplitSlash remote_file).map sanSeg)⟩

/-! ### Data model -/

/-- The constructor arguments of class `AdbSync` (`__init__`).  The
Python attribute `local` is called `localRoot` here because `local` is a
reserved word in Lean. -/
structure AdbSync where
  device : String
  adb : String
  copy_newer : Bool
  localRoot : String
  remote : Option String

/-- The per-folder counters `self.successes`, `self.errors`,
`self.skipped`, `self.overwritten` (between the reset at the top of
`pull_folder` and the reset at its end they are plain integers growing
from 0, hence `Nat`). -/
structure SyncState where
  successes : Nat
  errors : Nat
  skipped : List String
  overwritten : Nat

/-- Externally visible effects of processing a file:
`os.makedirs(os.path.dirname(local_file), exist_ok=True)` (recorded by
the target file path), the `adb pull -a -p remote local` invocation, and
a message printed to stderr. -/
inductive Event where
  | mkdirs (localF : String)
  | adbPull (remoteF : String) (localF : String)
  | stderrMsg (msg : String)

/-- The external world as pure functions: the local filesystem and the
stdout of each adb subprocess.  `getmtimeInt p` is
`int(os.path.getmtime(p))` — the float modification time already
truncated to integer seconds. -/
structure Env where
  pathExists : String → Bool
  getmtimeInt : String → Int
  statOut : String → String
  pullOut : String → String

/-- The substring `pull_file` looks for in the pull output. -/
def errorMarker : String := "adb: error:"

/-! ### `pull_file` (lines 124-172) -/

/-- The `overwrite` flag computed in `pull_file` lines 134-150: `False`
unless `self.copy_newer and os.path.exists(local_file)`, in which case
the remote mtime is queried and parsed with `int`; on `ValueError` the
flag stays `False`, otherwise it is `remote_time - local_time > -100`. -/
def overwriteFlag (a : AdbSync) (env : Env) (remote_file : String) : Bool :=
  if a.copy_newer && env.pathExists (local_file a.localRoot remote_file) then
    match pyInt (env.statOut remote_file) with
    | none => false
    | some remote_time =>
      decide (remote_time - env.getmtimeInt (local_file a.localRoot remote_file) > -100)
  else false

/-- `AdbSync.pull_file`: map the path, compute `overwrite`, and either
copy (classifying the output by the error marker, as in
`if msg and "adb: error:" in msg`) or append to the skipped list. -/
def pull_file (a : AdbSync) (env : Env) (st : SyncState) (remote_file : String) :
    SyncState × List Event :=
  let lf := local_file a.localRoot remote_file
  let overwrite := overwriteFlag a env remote_file
  if !env.pathExists lf || overwrite then
    let msg := env.pullOut remote_file
    if !(msg == "") && containsSub errorMarker.data msg.data then
      ({ st with errors := st.errors + 1 },
       [Event.mkdirs lf, Event.adbPull remote_file lf, Event.stderrMsg msg])
    else
      ({ st with successes := st.successes + 1,
                 overwritten := st.overwritten + (if overwrite then 1 else 0) },
       [Event.mkdirs lf, Event.adbPull remote_file lf])
  else
    ({ st with skipped := st.skipped ++ [remote_file] }, [])

/-! ### `pull_folder` (lines 84-122) -/

/-- The filter condition of the loop in `pull_folder` (lines 99-105):
the entry is truthy (nonempty) and its lowercase form contains none of
the block-listed substrings. -/
def keepsFile (remote_file : String) : Bool :=
  !(remote_file == "")
  && !containsSub "cache".data (pyLower remote_file).data
  && !containsSub ".thumbnails".data (pyLower remote_file).data
  && !containsSub ".mcrypt1".data (pyLower remote_file).data
  && !containsSub ".trashed".data (pyLower remote_file).data

/-- The block-listed substrings, for stating the filter property. -/
def blocklist : List String := ["cache", ".thumbnails", ".mcrypt1", ".trashed"]

/-- One iteration of the `for remote_file in remote_files` loop:
kept entries go through `pull_file`, the rest are appended to
`self.skipped`. -/
def processOne (a : AdbSync) (env : Env) (acc : SyncState × List Event)
    (remote_file : String) : SyncState × List Event :=
  if keepsFile remote_file then
    let r := pull_file a env acc.1 remote_file
    (r.1, acc.2 ++ r.2)
  else
    ({ acc.1 with skipped := acc.1.skipped ++ [remote_file] }, acc.2)

/-- The whole loop, left to right. -/
def processFiles (a : AdbSync) (env : Env) (files : List String)
    (acc : SyncState × List Event) : SyncState × List Event :=
  files.foldl (processOne a env) acc

/-- `AdbSync.pull_folder` applied to the captured stdout of
`adb shell find source -type f`: counters are reset to zero and every
line of the split output is processed.  The returned `.1.skipped` is the
list the method hands back to `pull` for the skip-log file. -/
def pull_folder (a : AdbSync) (env : Env) (findOut : String) :
    SyncState × List Event :=
  processFiles a env (splitNewline findOut) (⟨0, 0, [], 0⟩, [])

/-! ### `pull` (lines 53-82) -/

/-- Python `list.remove(x)`: drop the first occurrence of `x`, raise
`ValueError` when `x` is absent. -/
def pyRemove (x : String) : List String → Except String (List String)
  | [] => Except.error "list.remove(x): x not in list"
  | a :: as =>
    if a = x then Except.ok as
    else
      match pyRemove x as with
      | Except.error e => Except.error e
      | Except.ok as2 => Except.ok (a :: as2)

/-- Lines 60-64 of `pull`: split the `ls -d /sdcard/*` stdout on tabs
and newlines, `remove("")`, `remove("/sdcard/Android")`, and append the
WhatsApp media folder.  An uncaught `ValueError` from either `remove`
aborts the run. -/
def pullEnumerate (lsOut : String) : Except String (List String) :=
  match pyRemove "" (splitTabNewline lsOut) with
  | Except.error e => Except.error e
  | Except.ok fs =>
    match pyRemove "/sdcard/Android" fs with
    | Except.error e => Except.error e
    | Except.ok fs2 => Except.ok (fs2 ++ ["/sdcard/Android/media/com.whatsapp"])

/-- `AdbSync.pull`: enumerate the top-level folders, then run
`pull_folder` on each (`findOuts src` is the stdout of
`adb shell find src -type f`); each folder's skipped list is written to
its own skip-log file. -/
def pull (a : AdbSync) (env : Env) (lsOut : String) (findOuts : String → String) :
    Except String (List (String × (SyncState × List Event))) :=
  match pullEnumerate lsOut with
  | Except.error e => Except.error e
  | Except.ok folders =>
    Except.ok (folders.map (fun src => (src, pull_folder a env (findOuts src))))

/-- `AdbSync.push`: `raise NotImplementedError("Push is not supported yet.")`.
It touches no state and performs no effect. -/
def push (_st : SyncState) : Except String (SyncState × List Event) :=
  Except.error "Push is not supported yet."

deriving instance DecidableEq for SyncState
deriving instance DecidableEq for Event
deriving instance DecidableEq for AdbSync

/-! ### Concrete fixtures used to instantiate the theorems -/

/-- A configuration with `copy_newer` on. -/
def aN : AdbSync := ⟨"", "adb", true, "loc", none⟩

/-- A configuration with `copy_newer` off. -/
def aF : AdbSync := ⟨"", "adb", false, "loc", none⟩

/-- A sample environment: two local files exist, one remote file has an
unparseable stat output, one remote file makes `adb pull` print the
error marker. -/
def envW : Env where
  pathExists := fun p => p == "loc/sdcard/old.jpg" || p == "loc/sdcard/bad.jpg"
  getmtimeInt := fun _ => 100
  statOut := fun r => if r == "/sdcard/bad.jpg" then "xyz" else "200\n"
  pullOut := fun r => if r == "/sdcard/err.jpg" then "adb: error: failed" else ""

/-- The zero counters `pull_folder` starts from. -/
def st0 : SyncState := ⟨0, 0, [], 0⟩

/-! ### Helper lemmas -/

theorem sanChar_idem (c : Char) : sanChar (sanChar c) = sanChar c := by
  unfold sanChar
  cases h : forbiddenChar c <;> simp [h]

theorem sanChar_slash : sanChar '/' = '/' := by decide

theorem sanChar_ne_slash {c : Char} (h : c ≠ '/') : sanChar c ≠ '/' := by
  unfold sanChar
  split
  · decide
  · exact h

theorem sanSeg_idem (p : List Char) : sanSeg (sanSeg p) = sanSeg p := by
  unfold sanSeg
  rw [List.map_map]
  exact List.map_congr_left fun c _ => sanChar_idem c

theorem pySplitP_ne_nil (p : Char → Bool) : ∀ l : List Char, pySplitP p l ≠ []
  | [] => by simp [pySplitP]
  | c :: cs => by
    unfold pySplitP
    split
    · simp
    · cases h : pySplitP p cs <;> simp

theorem mem_pySplitP_no_sep (p : Char → Bool) :
    ∀ (l : List Char) (q : List Char), q ∈ pySplitP p l → ∀ c ∈ q, p c = false
  | [], q, hq => by
    simp [pySplitP] at hq
    subst hq
    intro c hc
    simp at hc
  | a :: as, q, hq => by
    unfold pySplitP at hq
    by_cases hp : p a
    · rw [if_pos hp] at hq
      rcases List.mem_cons.mp hq with rfl | hq2
      · intro c hc
        simp at hc
      · exact mem_pySplitP_no_sep p as q hq2
    · rw [if_neg hp] at hq
      cases hrec : pySplitP p as with
      | nil => exact absurd hrec (pySplitP_ne_nil p as)
      | cons s ss =>
        rw [hrec] at hq
        rcases List.mem_cons.mp hq with rfl | hq2
        · intro c hc
          rcases List.mem_cons.mp hc with rfl | hc2
          · simpa using hp
          · exact mem_pySplitP_no_sep p as s (hrec ▸ List.mem_cons_self s ss) c hc2
        · exact mem_pySplitP_no_sep p as q (hrec ▸ List.mem_cons_of_mem s hq2)

theorem flatten_slash_split : ∀ l : List Char,
    ((pySplitP isSlash l).map (fun q => '/' :: q)).flatten = '/' :: l
  | [] => by simp [pySplitP]
  | c :: cs => by
    unfold pySplitP
    by_cases h : isSlash c
    · have hc : c = '/' := by
        have := h
        unfold isSlash at this
        exact eq_of_beq this
      rw [if_pos h]
      simp only [List.map_cons, List.flatten_cons, List.cons_append, List.nil_append]
      rw [flatten_slash_split cs, hc]
    · rw [if_neg h]
      cases hrec : pySplitP isSlash cs with
      | nil => exact absurd hrec (pySplitP_ne_nil isSlash cs)
      | cons s ss =>
        have ih := flatten_slash_split cs
        rw [hrec] at ih
        simp only [List.map_cons, List.flatten_cons, List.cons_append] at ih ⊢
        have hsf : s ++ (ss.map (fun q => '/' :: q)).flatten = cs := by
          exact List.cons_injective ih
        rw [hsf]

theorem getLast?_ne_of_not_mem {l : List Char} {c : Char} (h : c ∉ l) :
    l.getLast? ≠ some c := by
  intro hl
  have hmem : c ∈ l.getLast? := by rw [hl]; rfl
  rcases List.mem_getLast?_eq_getLast hmem with ⟨hne, heq⟩
  exact h (heq ▸ List.getLast_mem hne)

theorem head?_ne_slash {q : List Char} (hq : q ≠ []) (hs : ('/' : Char) ∉ q) :
    q.head? ≠ some '/' := by
  cases q with
  | nil => simp
  | cons a as =>
    simp only [List.head?_cons, ne_eq, Option.some.injEq]
    intro h
    exact hs (h ▸ List.mem_cons_self a as)

theorem getLast?_append_slash_cons {pre q : List Char} (hq : q ≠ [])
    (hs : ('/' : Char) ∉ q) : (pre ++ '/' :: q).getLast? ≠ some '/' := by
  rw [List.getLast?_append_of_ne_nil pre (by simp)]
  cases q with
  | nil => exact absurd rfl hq
  | cons a as =>
    rw [List.getLast?_cons_cons]
    exact getLast?_ne_of_not_mem hs

/-- Once the accumulated path is nonempty and does not end in the
separator, `posixpath.join` appends `sep + part` for every remaining
part (parts coming from a `/`-split are nonempty and `/`-free). -/
theorem foldl_osJoinGo : ∀ (parts : List (List Char)) (path : List Char),
    path ≠ [] → path.getLast? ≠ some '/' →
    (∀ q ∈ parts, q ≠ [] ∧ ('/' : Char) ∉ q) →
    List.foldl osJoinGo path parts = path ++ (parts.map (fun q => '/' :: q)).flatten
  | [], path, _, _, _ => by simp
  | q :: rest, path, hp, hl, hparts => by
    obtain ⟨hq, hs⟩ := hparts q (List.mem_cons_self q rest)
    have hstep : osJoinGo path q = path ++ '/' :: q := by
      unfold osJoinGo
      rw [if_neg (head?_ne_slash hq hs), if_neg]
      push_neg
      exact ⟨hp, hl⟩
    rw [List.foldl_cons, hstep,
      foldl_osJoinGo rest (path ++ '/' :: q) (by simp)
        (getLast?_append_slash_cons hq hs)
        (fun r hr => hparts r (List.mem_cons_of_mem q hr))]
    simp

/-- `os.path.join(root, *parts)` for a split of an absolute remote path:
the leading empty segment contributes one separator, and every further
segment is appended behind a separator. -/
theorem osPathJoin_split (root q : List Char) (rest : List (List Char))
    (hr : root ≠ []) (hl : root.getLast? ≠ some '/')
    (hq : q ≠ [] ∧ ('/' : Char) ∉ q)
    (hrest : ∀ r ∈ rest, r ≠ [] ∧ ('/' : Char) ∉ r) :
    osPathJoin root ([] :: q :: rest) =
      root ++ (((q :: rest).map (fun s => '/' :: s)).flatten) := by
  unfold osPathJoin
  rw [List.foldl_cons]
  have h1 : osJoinGo root [] = root ++ ['/'] := by
    unfold osJoinGo
    rw [if_neg (by simp), if_neg (by push_neg; exact ⟨hr, hl⟩)]
  rw [h1, List.foldl_cons]
  have h2 : osJoinGo (root ++ ['/']) q = root ++ '/' :: q := by
    unfold osJoinGo
    rw [if_neg (head?_ne_slash hq.1 hq.2), if_pos]
    · simp
    · right
      rw [List.getLast?_append_of_ne_nil root (by simp)]
      rfl
  rw [h2, foldl_osJoinGo rest (root ++ '/' :: q) (by simp)
      (getLast?_append_slash_cons hq.1 hq.2) hrest]
  simp

/-- Full path-mapper characterisation for a well-formed absolute remote
path: the mapped local path is the local root followed by the remote
path with every forbidden character replaced. -/
theorem local_file_structure (root rf : String) (rest : List (List Char))
    (hr : root.data ≠ []) (hl : root.data.getLast? ≠ some '/')
    (hsplit : pySplitSlash rf = [] :: rest) (hne : rest ≠ [])
    (hq : ∀ q ∈ rest, q ≠ []) :
    (local_file root rf).data = root.data ++ rf.data.map sanChar := by
  obtain ⟨q, rest', rfl⟩ : ∃ q r, rest = q :: r := by
    cases rest with
    | nil => exact absurd rfl hne
    | cons q r => exact ⟨q, r, rfl⟩
  have hnosep : ∀ s ∈ q :: rest', s ≠ [] ∧ ('/' : Char) ∉ s := by
    intro s hs
    refine ⟨hq s hs, fun hmem => ?_⟩
    have hsmem : s ∈ pySplitP isSlash rf.data := by
      rw [show pySplitP isSlash rf.data = [] :: q :: rest' from hsplit]
      exact List.mem_cons_of_mem [] hs
    have := mem_pySplitP_no_sep isSlash rf.data s hsmem '/' hmem
    simp [isSlash] at this
  have hsan : ∀ s ∈ (q :: rest').map sanSeg, s ≠ [] ∧ ('/' : Char) ∉ s := by
    intro s hs
    rcases List.mem_map.mp hs with ⟨t, ht, rfl⟩
    obtain ⟨ht1, ht2⟩ := hnosep t ht
    refine ⟨by simpa [sanSeg] using ht1, fun hmem => ?_⟩
    rcases List.mem_map.mp hmem with ⟨c, hc, hcs⟩
    exact sanChar_ne_slash (fun hcc => ht2 (hcc ▸ hc)) hcs
  have hjoin :
      osPathJoin root.data (([] :: q :: rest').map sanSeg) =
        root.data ++ ((((q :: rest').map sanSeg).map (fun s => '/' :: s)).flatten) := by
    have := osPathJoin_split root.data (sanSeg q) ((rest').map sanSeg) hr hl
      (hsan (sanSeg q) (List.mem_map_of_mem sanSeg (List.mem_cons_self q rest')))
      (fun r hrm => hsan r (by
        rcases List.mem_map.mp hrm with ⟨t, ht, rfl⟩
        exact List.mem_map_of_mem sanSeg (List.mem_cons_of_mem q ht)))
    simpa [sanSeg] using this
  have hcomm :
      (((q :: rest').map sanSeg).map (fun s => '/' :: s)).flatten =
        (((q :: rest').map (fun s => '/' :: s)).flatten).map sanChar := by
    rw [List.map_flatten, List.map_map, List.map_map]
    congr 1
  have hflat : ((q :: rest').map (fun s => '/' :: s)).flatten = rf.data := by
    have := flatten_slash_split rf.data
    rw [show pySplitP isSlash rf.data = [] :: q :: rest' from hsplit] at this
    simp only [List.map_cons, List.flatten_cons, List.cons_append,
      List.nil_append] at this
    exact List.cons_injective this
  calc (local_file root rf).data
      = osPathJoin root.data (([] :: q :: rest').map sanSeg) := by
        simp [local_file, hsplit]
    _ = root.data ++ rf.data.map sanChar := by
        rw [hjoin, hcomm, hflat]

theorem overwriteFlag_of_not_newer {a : AdbSync} (env : Env) (rf : String)
    (h : a.copy_newer = false) : overwriteFlag a env rf = false := by
  simp [overwriteFlag, h]

/-- The error marker never occurs in the empty output. -/
theorem containsSub_marker_ne_empty {msg : String}
    (h : containsSub errorMarker.data msg.data = true) : (msg == "") = false := by
  cases hm : msg == "" with
  | false => rfl
  | true =>
    have hmsg : msg = "" := eq_of_beq hm
    rw [hmsg] at h
    exact absurd h (by decide)

/-- Each loop iteration settles its entry in exactly one outcome bucket. -/
theorem processOne_total (a : AdbSync) (env : Env) (acc : SyncState × List Event)
    (rf : String) :
    (processOne a env acc rf).1.successes + (processOne a env acc rf).1.errors +
        (processOne a env acc rf).1.skipped.length =
      acc.1.successes + acc.1.errors + acc.1.skipped.length + 1 := by
  unfold processOne pull_file
  dsimp only
  split
  · split
    · split <;> simp <;> omega
    · simp
      omega
  · simp
    omega

/-- Each loop iteration keeps `overwritten ≤ successes`. -/
theorem processOne_overwritten (a : AdbSync) (env : Env) (acc : SyncState × List Event)
    (rf : String) (h : acc.1.overwritten ≤ acc.1.successes) :
    (processOne a env acc rf).1.overwritten ≤ (processOne a env acc rf).1.successes := by
  unfold processOne pull_file
  dsimp only
  split
  · split
    · split
      · simpa using h
      · have hb : (if overwriteFlag a env rf then 1 else 0) ≤ 1 := by
          split <;> simp
        simp
        omega
    · simpa using h
  · simpa using h

theorem processFiles_total (a : AdbSync) (env : Env) :
    ∀ (files : List String) (acc : SyncState × List Event),
    (processFiles a env files acc).1.successes + (processFiles a env files acc).1.errors +
        (processFiles a env files acc).1.skipped.length =
      acc.1.successes + acc.1.errors + acc.1.skipped.length + files.length
  | [], acc => by simp [processFiles]
  | f :: fs, acc => by
    have h1 := processOne_total a env acc f
    have h2 := processFiles_total a env fs (processOne a env acc f)
    unfold processFiles at h2 ⊢
    rw [List.foldl_cons]
    rw [h2, h1]
    simp
    omega

theorem processFiles_overwritten (a : AdbSync) (env : Env) :
    ∀ (files : List String) (acc : SyncState × List Event),
    acc.1.overwritten ≤ acc.1.successes →
    (processFiles a env files acc).1.overwritten ≤
      (processFiles a env files acc).1.successes
  | [], _, h => h
  | f :: fs, acc, h => by
    have h1 := processOne_overwritten a env acc f h
    have h2 := processFiles_overwritten a env fs (processOne a env acc f) h1
    unfold processFiles at h2 ⊢
    rw [List.foldl_cons]
    exact h2

theorem pyRemove_of_not_mem (x : String) :
    ∀ l : List String, x ∉ l →
      pyRemove x l = Except.error "list.remove(x): x not in list"
  | [], _ => rfl
  | a :: as, h => by
    have ha : ¬a = x := fun e => h (e ▸ List.mem_cons_self a as)
    have has : x ∉ as := fun m => h (List.mem_cons_of_mem a m)
    rw [pyRemove, if_neg ha, pyRemove_of_not_mem x as has]

theorem pyRemove_ok_not_mem {x y : String} :
    ∀ {l l' : List String}, pyRemove x l = Except.ok l' → y ∉ l → y ∉ l'
  | [], _, h, _ => by simp [pyRemove] at h
  | a :: as, l', h, hy => by
    rw [pyRemove] at h
    by_cases ha : a = x
    · rw [if_pos ha] at h
      injection h with h
      exact fun m => hy (h ▸ List.mem_cons_of_mem a m)
    · rw [if_neg ha] at h
      cases hrec : pyRemove x as with
      | error e => rw [hrec] at h; exact absurd h (by simp)
      | ok as2 =>
        rw [hrec] at h
        injection h with h
        subst h
        have hya : ¬y = a := fun e => hy (e ▸ List.mem_cons_self a as)
        have hyas : y ∉ as := fun m => hy (List.mem_cons_of_mem a m)
        have := pyRemove_ok_not_mem hrec hyas
        simp [hya, this]

/-! ### Claim theorems -/

/-- C1: in pull mode, with the remote stat output parsing to the integer
`R` and the local mtime being `L`, the overwrite flag is authorised if
and only if `copy_newer` is enabled, the mapped local file exists, and
`R - L > -100`. -/
theorem c1_overwrite_decision (a : AdbSync) (env : Env) (rf : String) (R : Int)
    (hR : pyInt (env.statOut rf) = some R) :
    overwriteFlag a env rf = true ↔
      (a.copy_newer = true ∧ env.pathExists (local_file a.localRoot rf) = true ∧
        R - env.getmtimeInt (local_file a.localRoot rf) > -100) := by
  unfold overwriteFlag
  cases hc : a.copy_newer <;>
    cases he : env.pathExists (local_file a.localRoot rf) <;>
      simp [hc, he, hR]

theorem c1_overwrite_decision_witness :
    pyInt (envW.statOut "/sdcard/old.jpg") = some 200 ∧
    (overwriteFlag aN envW "/sdcard/old.jpg" = true ↔
      (aN.copy_newer = true ∧
        envW.pathExists (local_file aN.localRoot "/sdcard/old.jpg") = true ∧
        (200 : Int) - envW.getmtimeInt (local_file aN.localRoot "/sdcard/old.jpg") > -100)) :=
  ⟨by decide, c1_overwrite_decision aN envW "/sdcard/old.jpg" 200 (by decide)⟩

/-- C2: for every attempted copy, marker-bearing output increments the
error counter by one and sends the message to stderr while every other
counter is unchanged; otherwise the success counter is incremented and
the overwritten counter is incremented exactly when the copy was an
authorised overwrite; in both cases the loop moves on to the next
file. -/
theorem c2_copy_outcome (a : AdbSync) (env : Env) (st : SyncState) (rf : String)
    (hatt : env.pathExists (local_file a.localRoot rf) = false ∨
      overwriteFlag a env rf = true) :
    (containsSub errorMarker.data (env.pullOut rf).data = true →
       (pull_file a env st rf).1 = { st with errors := st.errors + 1 } ∧
       Event.stderrMsg (env.pullOut rf) ∈ (pull_file a env st rf).2) ∧
    (containsSub errorMarker.data (env.pullOut rf).data = false →
       (pull_file a env st rf).1 =
         { st with successes := st.successes + 1,
                   overwritten := st.overwritten +
                     (if overwriteFlag a env rf then 1 else 0) }) ∧
    (∀ (acc : SyncState × List Event) (rest : List String),
       processFiles a env (rf :: rest) acc =
         processFiles a env rest (processOne a env acc rf)) := by
  have hcond : (!env.pathExists (local_file a.localRoot rf) ||
      overwriteFlag a env rf) = true := by
    rcases hatt with h | h <;> simp [h]
  refine ⟨fun h => ?_, fun h => ?_, fun acc rest => rfl⟩
  · have hne := containsSub_marker_ne_empty h
    constructor <;> simp [pull_file, hcond, hne, h]
  · simp [pull_file, hcond, h]

theorem c2_copy_outcome_witness :
    ((pull_file aN envW st0 "/sdcard/err.jpg").1 =
        { st0 with errors := st0.errors + 1 } ∧
      Event.stderrMsg (envW.pullOut "/sdcard/err.jpg") ∈
        (pull_file aN envW st0 "/sdcard/err.jpg").2) ∧
    (pull_file aN envW st0 "/sdcard/new.jpg").1 =
      { st0 with successes := st0.successes + 1,
                 overwritten := st0.overwritten +
                   (if overwriteFlag aN envW "/sdcard/new.jpg" then 1 else 0) } :=
  ⟨(c2_copy_outcome aN envW st0 "/sdcard/err.jpg" (Or.inl (by decide))).1 (by decide),
   (c2_copy_outcome aN envW st0 "/sdcard/new.jpg" (Or.inl (by decide))).2.1 (by decide)⟩

/-- C3: when no local file exists at the mapped path, the copy is
attempted regardless of `copy_newer` and nothing is added to the skip
list; when the local file exists and `copy_newer` is off, the entry is
always skipped, whatever the timestamps. -/
theorem c3_existence_gate (a : AdbSync) (env : Env) (st : SyncState) (rf : String) :
    (env.pathExists (local_file a.localRoot rf) = false →
       Event.adbPull rf (local_file a.localRoot rf) ∈ (pull_file a env st rf).2 ∧
       (pull_file a env st rf).1.skipped = st.skipped) ∧
    (env.pathExists (local_file a.localRoot rf) = true → a.copy_newer = false →
       pull_file a env st rf = ({ st with skipped := st.skipped ++ [rf] }, [])) := by
  constructor
  · intro h
    have hcond : (!env.pathExists (local_file a.localRoot rf) ||
        overwriteFlag a env rf) = true := by simp [h]
    cases hm : (!(env.pullOut rf == "") &&
        containsSub errorMarker.data (env.pullOut rf).data) <;>
      constructor <;> simp [pull_file, hcond, hm]
  · intro he hnew
    have hov := overwriteFlag_of_not_newer env rf hnew
    simp [pull_file, he, hov]

theorem c3_existence_gate_witness :
    (Event.adbPull "/sdcard/new.jpg" (local_file aN.localRoot "/sdcard/new.jpg") ∈
        (pull_file aN envW st0 "/sdcard/new.jpg").2 ∧
      (pull_file aN envW st0 "/sdcard/new.jpg").1.skipped = st0.skipped) ∧
    pull_file aF envW st0 "/sdcard/old.jpg" =
      ({ st0 with skipped := st0.skipped ++ ["/sdcard/old.jpg"] }, []) :=
  ⟨(c3_existence_gate aN envW st0 "/sdcard/new.jpg").1 (by decide),
   (c3_existence_gate aF envW st0 "/sdcard/old.jpg").2 (by decide) (by decide)⟩

/-- C4: a remote path whose lowercase form contains a block-listed
substring is rejected by the filter: the loop iteration appends it to
the skipped list and performs no effect (in particular no copy). -/
theorem c4_blocklist_rejected (a : AdbSync) (env : Env)
    (acc : SyncState × List Event) (rf b : String) (hb : b ∈ blocklist)
    (hc : containsSub b.data (pyLower rf).data = true) :
    processOne a env acc rf =
      ({ acc.1 with skipped := acc.1.skipped ++ [rf] }, acc.2) := by
  have hk : keepsFile rf = false := by
    simp only [blocklist, List.mem_cons, List.not_mem_nil, or_false] at hb
    rcases hb with rfl | rfl | rfl | rfl <;> simp [keepsFile, hc]
  simp [processOne, hk]

theorem c4_blocklist_rejected_witness :
    processOne aN envW (st0, []) "/sdcard/Cache/tmp.bin" =
      ({ st0 with skipped := st0.skipped ++ ["/sdcard/Cache/tmp.bin"] }, []) :=
  c4_blocklist_rejected aN envW (st0, []) "/sdcard/Cache/tmp.bin" "cache"
    (by decide) (by decide)

/-- C5: the path mapper splits on the separator, replaces every
occurrence of each forbidden character by a dash in every segment
(position by position), joins under the local root preserving the whole
remote structure including the leading root segment, and the sanitising
transform is idempotent. -/
theorem c5_path_mapper (root rf : String) (rest : List (List Char))
    (hr : root.data ≠ []) (hl : root.data.getLast? ≠ some '/')
    (hsplit : pySplitSlash rf = [] :: rest) (hne : rest ≠ [])
    (hq : ∀ q ∈ rest, q ≠ []) :
    local_file root rf = ⟨osPathJoin root.data ((pySplitSlash rf).map sanSeg)⟩ ∧
    (∀ s : String, sanitizeSegment (sanitizeSegment s) = sanitizeSegment s) ∧
    (∀ (p : List Char) (i : Nat),
       (sanSeg p)[i]? = (p[i]?).map (fun c => if forbiddenChar c then '-' else c)) ∧
    (local_file root rf).data = root.data ++ rf.data.map sanChar := by
  refine ⟨rfl, fun s => ?_, fun p i => ?_, ?_⟩
  · show (⟨sanSeg (sanSeg s.data)⟩ : String) = ⟨sanSeg s.data⟩
    rw [sanSeg_idem]
  · rw [sanSeg, List.getElem?_map]
    rfl
  · exact local_file_structure root rf rest hr hl hsplit hne hq

theorem c5_path_mapper_witness :
    (local_file "loc" "/sdcard/DC:IM/a*.jpg").data =
      "loc".data ++ "/sdcard/DC:IM/a*.jpg".data.map sanChar :=
  (c5_path_mapper "loc" "/sdcard/DC:IM/a*.jpg"
      [['s','d','c','a','r','d'], ['D','C',':','I','M'], ['a','*','.','j','p','g']]
      (by decide) (by decide) (by decide) (by decide) (by decide)).2.2.2

/-- C6: when the remote stat output does not parse as an integer,
overwrite is denied, and if the local file exists the entry is simply
skipped — counters for successes and errors are untouched and the run
goes on. -/
theorem c6_unparseable_denies_overwrite (a : AdbSync) (env : Env) (st : SyncState)
    (rf : String) (hp : pyInt (env.statOut rf) = none) :
    overwriteFlag a env rf = false ∧
    (env.pathExists (local_file a.localRoot rf) = true →
       pull_file a env st rf = ({ st with skipped := st.skipped ++ [rf] }, [])) := by
  have hov : overwriteFlag a env rf = false := by
    unfold overwriteFlag
    split
    · rw [hp]
    · rfl
  refine ⟨hov, fun he => ?_⟩
  simp [pull_file, he, hov]

theorem c6_unparseable_denies_overwrite_witness :
    overwriteFlag aN envW "/sdcard/bad.jpg" = false ∧
    pull_file aN envW st0 "/sdcard/bad.jpg" =
      ({ st0 with skipped := st0.skipped ++ ["/sdcard/bad.jpg"] }, []) :=
  ⟨(c6_unparseable_denies_overwrite aN envW st0 "/sdcard/bad.jpg" (by decide)).1,
   (c6_unparseable_denies_overwrite aN envW st0 "/sdcard/bad.jpg" (by decide)).2
     (by decide)⟩

/-- C7 counterexample: splitting the find output `"a\n"` produces a
trailing empty entry, and that empty string is recorded in the skipped
list, contradicting the claim that empty strings are discarded from
every record. -/
theorem c7_counterexample_empty_recorded :
    "" ∈ (pull_folder aN envW "a\n").1.skipped := by decide

/-- C7 (amended): an empty-string entry is never processed as a file —
no effect happens and successes, errors and overwritten are unchanged —
but it is appended to the skipped list. -/
theorem c7_empty_entry_only_skipped (a : AdbSync) (env : Env)
    (acc : SyncState × List Event) :
    processOne a env acc "" =
      ({ acc.1 with skipped := acc.1.skipped ++ [""] }, acc.2) := by
  simp [processOne, keepsFile]

/-- C8 counterexample: with an unreachable bridge tool the listing
stdout is empty, and the enumeration raises `ValueError` (from
`remove("/sdcard/Android")`) instead of yielding an empty sequence: the
run fails. -/
theorem c8_counterexample_empty_listing :
    pull aN envW "" (fun _ => "") =
        Except.error "list.remove(x): x not in list" ∧
    pullEnumerate "" ≠ Except.ok ([] : List String) := by
  refine ⟨rfl, fun hcon => ?_⟩
  rw [show pullEnumerate "" = Except.error "list.remove(x): x not in list"
    from rfl] at hcon
  exact Except.noConfusion hcon

/-- C8 (amended): whenever the listing output contains no
`/sdcard/Android` entry — in particular when the bridge tool is
unreachable and the output is empty — the enumeration raises an error
(`ValueError` from `list.remove`) instead of proceeding with zero
files. -/
theorem c8_enumeration_failure_raises (lsOut : String)
    (h : "/sdcard/Android" ∉ splitTabNewline lsOut) :
    ∃ e, pullEnumerate lsOut = Except.error e := by
  unfold pullEnumerate
  cases h1 : pyRemove "" (splitTabNewline lsOut) with
  | error e => exact ⟨e, rfl⟩
  | ok fs =>
    have h2 : "/sdcard/Android" ∉ fs := pyRemove_ok_not_mem h1 h
    have h3 := pyRemove_of_not_mem "/sdcard/Android" fs h2
    refine ⟨"list.remove(x): x not in list", ?_⟩
    dsimp only
    rw [h3]

theorem c8_enumeration_failure_raises_witness :
    ∃ e, pullEnumerate "" = Except.error e :=
  c8_enumeration_failure_raises "" (by decide)

/-- C9: over a whole per-root run, every enumerated entry lands in
exactly one outcome bucket — successes plus errors plus the length of
the skipped list equals the number of enumerated entries — and the
overwritten count never exceeds the success count. -/
theorem c9_outcome_conservation (a : AdbSync) (env : Env) (findOut : String) :
    (pull_folder a env findOut).1.successes + (pull_folder a env findOut).1.errors +
        (pull_folder a env findOut).1.skipped.length =
      (splitNewline findOut).length ∧
    (pull_folder a env findOut).1.overwritten ≤
      (pull_folder a env findOut).1.successes := by
  constructor
  · have := processFiles_total a env (splitNewline findOut) (⟨0, 0, [], 0⟩, [])
    simpa [pull_folder] using this
  · exact processFiles_overwritten a env (splitNewline findOut) (⟨0, 0, [], 0⟩, [])
      (by simp)

/-- C10: invoking the push direction fails immediately with the
"not supported" error, leaving every state untouched and performing no
effect. -/
theorem c10_push_not_supported :
    ∀ st : SyncState, push st = Except.error "Push is not supported yet." :=
  fun _ => rfl

end AdbSyncModel
